import Mathlib

/-!
Verification of the `offlog`/`ulog` repository core against its specification.

The development shallowly embeds the relevant Python source:
  * `src/ulog/client.py`  — `_ByteQueue`, `ProxyFile.write`, `ProxyFile._retry_queued`,
    `ProxyFile._checksend`, `ProxyFile._recv_msg`, `ProxyFile._open`, `ProxyFile.close`;
  * `src/ulog/server.py`  — `FileHandler` (registry, `write`, `client_done`),
    `Server.cmd_hello` / `cmd_check_access` / `cmd_done` / `handle_control_request`,
    and the inactivity-timeout machinery (`set_timeout`, `cancel_timeout`,
    `do_timeout`, `handle_write_request`, `Task`, `TaskQueue`).

Bytes are modelled as natural numbers, byte strings as `List Nat`, and the
nondeterministic environment (socket send/recv outcomes, filesystem open and
write results, poll readiness) as explicit schedule/oracle parameters, so every
definition is an executable function of the code's inputs plus the environment's
choices.  All recursions are structural so that concrete runs reduce by `decide`.
-/

set_option maxHeartbeats 1000000

/-! ### `_ByteQueue` (src/ulog/client.py lines 27–75) -/

/-- Chunk size constant `BUFSIZE = 4096` from src/ulog/client.py line 10. -/
def BUFSIZE : Nat := 4096

/-- Model of `_ByteQueue`: the `deque` of `BytesIO` chunks is a list of byte
lists (`self.q`).  A `BytesIO` object is just its byte contents here. -/
structure ByteQueue where
  q : List (List Nat)
deriving DecidableEq

/-- Model of `_ByteQueue.__len__` (client.py lines 39–48), translated branch by
branch: head chunk size, plus last chunk size when there are at least two
chunks, plus `BUFSIZE` for each of the `qlen - 2` interior chunks when there
are more than two. -/
def ByteQueue.len (bq : ByteQueue) : Nat :=
  let qlen := bq.q.length
  if qlen = 0 then 0
  else
    (bq.q.headD []).length
      + (if 1 < qlen then (bq.q.getLastD []).length else 0)
      + (if 2 < qlen then BUFSIZE * (qlen - 2) else 0)

/-- All bytes stored in the queue, front to back (the semantic contents). -/
def ByteQueue.bytes (bq : ByteQueue) : List Nat := bq.q.flatten

/-- Chunking loop of `_ByteQueue.put` (client.py lines 57–61): `while data:`
append a fresh chunk holding `data[:BUFSIZE]` and continue with
`data[BUFSIZE:]`.  The fuel argument makes the recursion structural; it is
adequate whenever `fuel ≥ data.length` since each step drops at least one
byte (`BUFSIZE > 0`). -/
def putChunksAux : Nat → List Nat → List (List Nat)
  | 0, _ => []
  | _ + 1, [] => []
  | fuel + 1, data => data.take BUFSIZE :: putChunksAux fuel (data.drop BUFSIZE)

/-- The chunking loop with its canonical fuel. -/
def putChunks (data : List Nat) : List (List Nat) := putChunksAux data.length data

/-- Model of `_ByteQueue.put` (client.py lines 50–61).  `if self:` is the
truthiness of `__len__`; when the queue is non-empty the last chunk is first
topped up with `data[:curr_chunk_nbytes_avail]` (when it has room), then the
remaining data is appended as fresh chunks. -/
def ByteQueue.put (bq : ByteQueue) (data : List Nat) : ByteQueue :=
  if bq.len ≠ 0 then
    let last := bq.q.getLastD []
    let avail := BUFSIZE - last.length
    if avail ≠ 0 then
      ⟨bq.q.dropLast ++ (last ++ data.take avail) :: putChunks (data.drop avail)⟩
    else
      ⟨bq.q ++ putChunks data⟩
  else
    ⟨bq.q ++ putChunks data⟩

/-- Model of `_ByteQueue.peek` (client.py lines 63–65): the head chunk's
contents.  Python raises `IndexError` on an empty queue; all call sites only
invoke `peek` on a non-empty queue and the theorems below carry that
hypothesis. -/
def ByteQueue.peek (bq : ByteQueue) : List Nat := bq.q.headD []

/-- Model of `_ByteQueue.done` (client.py lines 67–75): pop the head chunk and,
when `n` is smaller than the chunk, push the unconsumed tail back as a new head
chunk.  Python raises `IndexError` when `n ≠ 0` and the queue is empty; that
branch is modelled as the identity and is never exercised by the theorems. -/
def ByteQueue.done (bq : ByteQueue) (n : Nat) : ByteQueue :=
  if n = 0 then bq
  else
    match bq.q with
    | [] => bq
    | chunk :: rest => if n < chunk.length then ⟨chunk.drop n :: rest⟩ else ⟨rest⟩

/-- Queue operations available to clients of `_ByteQueue`. -/
inductive QOp
  | put (data : List Nat)
  | done (n : Nat)
deriving DecidableEq

/-- Apply one queue operation. -/
def ByteQueue.applyOp (bq : ByteQueue) : QOp → ByteQueue
  | .put data => bq.put data
  | .done n => bq.done n

/-- Run a sequence of queue operations from the empty queue (`__init__`). -/
def runQOps (ops : List QOp) : ByteQueue := ops.foldl ByteQueue.applyOp ⟨[]⟩

/-- Structural well-formedness of a chunk list in which every chunk except
possibly the last is exactly `BUFSIZE` bytes, and every chunk is non-empty and
at most `BUFSIZE` bytes. -/
def FullExceptLast : List (List Nat) → Prop
  | [] => True
  | [c] => 0 < c.length ∧ c.length ≤ BUFSIZE
  | c :: rest => c.length = BUFSIZE ∧ FullExceptLast rest

/-- Invariant of reachable `_ByteQueue` states: the head chunk is non-empty and
at most `BUFSIZE` bytes (it may be partially consumed by `done`), and the tail
chunks are full except possibly the final one (which `put` may leave
partial). -/
def QueueWF : List (List Nat) → Prop
  | [] => True
  | c :: rest => (0 < c.length ∧ c.length ≤ BUFSIZE) ∧ FullExceptLast rest

/-! ### `ProxyFile` streaming writes (src/ulog/client.py lines 157–188)

The socket is modelled by a schedule of send-call outcomes: each call of
`sock.send(data)` consumes the next entry, either accepting up to `n` bytes
(`send` returns the number of bytes actually taken, at most `len(data)`), or
raising `BlockingIOError`.  An exhausted schedule behaves like a would-block:
the environment accepts no further bytes during this call.  `BrokenPipeError`
and `ConnectionResetError` are modelled separately for `_checksend` below; the
ordering claims quantify over accept/would-block traces. -/

/-- One outcome of a `sock.send` call on the non-blocking socket. -/
inductive SendOut
  | ok (n : Nat)
  | block
deriving DecidableEq

/-- Model of `ProxyFile._retry_queued` (client.py lines 157–168): `while` the
send queue is non-empty (truthiness of `__len__`), send `peek()` and consume
the accepted count with `done`; a would-block ends the loop silently
(`except BlockingIOError: pass`).  Returns the final queue, the bytes the
socket accepted, and the unconsumed schedule. -/
def retryQueued : List SendOut → ByteQueue → ByteQueue × List Nat × List SendOut
  | [], bq => (bq, [], [])
  | ev :: rest, bq =>
    if bq.len = 0 then (bq, [], ev :: rest)
    else
      match ev with
      | .block => (bq, [], rest)
      | .ok n =>
          let sent := min n bq.peek.length
          let r := retryQueued rest (bq.done sent)
          (r.1, bq.peek.take sent ++ r.2.1, r.2.2)

/-- Model of the new-data loop of `ProxyFile.write` (client.py lines 181–186):
`while data:` send and drop the accepted prefix.  Returns the accepted bytes,
`some remainder` when a would-block interrupted the loop (the
`BlockingIOError` branch), `none` when all data was sent, and the unconsumed
schedule. -/
def sendNew : List SendOut → List Nat → List Nat × Option (List Nat) × List SendOut
  | [], data => if data = [] then ([], none, []) else ([], some data, [])
  | ev :: rest, data =>
    if data = [] then ([], none, ev :: rest)
    else
      match ev with
      | .block => ([], some data, rest)
      | .ok n =>
          let sent := min n data.length
          let r := sendNew rest (data.drop sent)
          (data.take sent ++ r.1, r.2.1, r.2.2)

/-- Model of `ProxyFile.write` (client.py lines 170–188) in the streaming
phase: first `_retry_queued()`, then try to send the new data, queueing the
unsent remainder on would-block (`self._sendqueue.put(data)`).  Returns the
resulting send queue and the bytes the socket accepted during this call. -/
def pfWrite (bq : ByteQueue) (data : List Nat) (sched : List SendOut) :
    ByteQueue × List Nat :=
  let r := retryQueued sched bq
  let s := sendNew r.2.2 data
  match s.2.1 with
  | none => (r.1, r.2.1 ++ s.1)
  | some rem => (r.1.put rem, r.2.1 ++ s.1)

/-- Run a sequence of `write` calls, each with its own send-outcome schedule,
starting from the given queue; returns the final queue and the concatenation
of all bytes the socket accepted, in the order it accepted them. -/
def runWrites : ByteQueue → List (List Nat × List SendOut) → ByteQueue × List Nat
  | bq, [] => (bq, [])
  | bq, (data, sched) :: calls =>
      let r := pfWrite bq data sched
      let rest := runWrites r.1 calls
      (rest.1, r.2 ++ rest.2)

/-- A schedule that accepts nothing: every entry is a would-block. -/
def allBlockSched : List SendOut → Bool
  | [] => true
  | .block :: rest => allBlockSched rest
  | .ok _ :: _ => false

/-- A schedule in which the socket, once it reports would-block, keeps
reporting would-block for the remainder of the `write` call (the socket does
not become writable again mid-call). -/
def monotoneSched : List SendOut → Bool
  | [] => true
  | .ok _ :: rest => monotoneSched rest
  | .block :: rest => allBlockSched rest

/-! ### `ProxyFile._recv_msg` and `_checksend` (src/ulog/client.py lines 106–155) -/

/-- Errors that `_recv_msg` can raise. -/
inductive RecvErr
  | timeoutErr
  | eofErr
  | resetErr
deriving DecidableEq

/-- One poll/recv round observed by `_recv_msg`: the poll times out (returns
no events), or `recv` raises `ConnectionResetError`, or `recv` returns a
datagram/stream segment (the empty segment signalling EOF). -/
inductive RecvEv
  | pollTimeout
  | reset
  | dataIn (d : List Nat)
deriving DecidableEq

/-- Model of `ProxyFile._recv_msg` (client.py lines 106–128): loop while the
poll reports readiness; `data.partition(b'\x00')` splits at the first NUL; the
pre-NUL part accumulates in `self._recv_buf`; an empty `recv` raises
`EOFError`; a NUL completes the message (the bytes after the NUL stay in the
receive buffer and are also returned here).  An exhausted or timed-out poll
raises `TimeoutError("No response from server")`.  The socket is closed on
every error path (tracked by `pfClose` below where it matters). -/
def recvMsg (buf : List Nat) : List RecvEv → Except RecvErr (List Nat × List Nat)
  | [] => .error .timeoutErr
  | .pollTimeout :: _ => .error .timeoutErr
  | .reset :: _ => .error .resetErr
  | .dataIn d :: rest =>
      let msg := d.takeWhile (· != 0)
      let buf' := buf ++ msg
      if d = [] then .error .eofErr
      else if 0 ∈ d then .ok (buf', d.drop (msg.length + 1))
      else recvMsg buf' rest

/-- Errors a streaming send can surface to the caller of `write`. -/
inductive ClientErr
  | blockErr
  | pipeErr
  | resetErr
  | timeoutErr
  | eofErr
  | serverErr (kind msg : List Nat)
deriving DecidableEq

/-- Errors raised inside `_recv_msg` propagate unchanged out of `_checksend`'s
`except BrokenPipeError` handler (there is no surrounding try/except). -/
def liftRecv : RecvErr → ClientErr
  | .timeoutErr => .timeoutErr
  | .eofErr => .eofErr
  | .resetErr => .resetErr

/-- Index of the first occurrence of the two-byte separator `": "` (58, 32),
mirroring `response.decode('utf8').split(': ', 1)` in `_make_exception`
(client.py lines 15–24). -/
def findSep : List Nat → Option Nat
  | [] => none
  | 58 :: 32 :: _ => some 0
  | _ :: rest => (findSep rest).map (· + 1)

/-- ASCII bytes of `"ValueError"`, the fallback class in `_make_exception`. -/
def VALUE_ERROR : List Nat := [86, 97, 108, 117, 101, 69, 114, 114, 111, 114]

/-- Model of `_make_exception` (client.py lines 15–24): split the response at
the first `": "` into (exception class name, message); with no separator the
result is a `ValueError` carrying the whole response.  The `getattr(builtins,
…)` lookup of the class object is represented by the class-name bytes. -/
def makeException (resp : List Nat) : List Nat × List Nat :=
  match findSep resp with
  | some i => (resp.take i, resp.drop (i + 2))
  | none => (VALUE_ERROR, resp)

/-- Outcome of the single `sock.send` call inside `_checksend`. -/
inductive SendEv
  | accepted (n : Nat)
  | wouldBlock
  | pipeBroken
  | resetPeer
deriving DecidableEq

/-- Model of `ProxyFile._checksend` (client.py lines 141–155): forward the
send result; on `BrokenPipeError` perform `_recv_msg(timeout=0)` against the
given receive schedule and raise the decoded server error when the response is
non-empty, re-raising the broken pipe only for an empty response; errors
raised by `_recv_msg` itself (timeout, EOF, reset) propagate instead of the
broken pipe.  `ConnectionResetError` propagates directly. -/
def checksend (data : List Nat) (ev : SendEv) (recvSched : List RecvEv) :
    Except ClientErr Nat :=
  match ev with
  | .accepted n => .ok (min n data.length)
  | .wouldBlock => .error .blockErr
  | .resetPeer => .error .resetErr
  | .pipeBroken =>
      match recvMsg [] recvSched with
      | .error e => .error (liftRecv e)
      | .ok (resp, _) =>
          if resp ≠ [] then
            .error (.serverErr (makeException resp).1 (makeException resp).2)
          else .error .pipeErr

/-- ASCII bytes of `FILE_OK = b"OK"` (client.py line 11). -/
def FILE_OK : List Nat := [79, 75]

/-- Acceptance test of `ProxyFile._open` (client.py lines 136–139): the
NUL-terminated response message must equal `FILE_OK` exactly, otherwise the
socket is closed and the decoded exception is raised. -/
def proxyOpenAccepts (response : List Nat) : Bool := response = FILE_OK

/-! ### `ProxyFile.close` (src/ulog/client.py lines 190–212) -/

/-- ASCII bytes of `GOODBYE = b"BYE"` (client.py line 12). -/
def GOODBYE : List Nat := [66, 89, 69]

/-- Errors `close()` can raise (all paths still close the socket). -/
inductive CloseErr
  | flushTimeout (residual : Nat)
  | recvFail (e : RecvErr)
  | badResponse (kind msg : List Nat)
deriving DecidableEq

/-- Client endpoint state relevant to `close()`: whether the socket is open
(`sock.fileno() != -1`) and the send queue. -/
structure PFState where
  sockOpen : Bool
  queue : ByteQueue
deriving DecidableEq

/-- Model of the flush loop of `close` (client.py lines 199–206): while the
send queue is non-empty, wait for writability; on readiness run
`_retry_queued` with the next send schedule; a poll timeout (or exhausted
schedule) raises `TimeoutError` reporting the residual byte count. -/
def flushLoop : List (Option (List SendOut)) → ByteQueue → ByteQueue × Option CloseErr
  | [], bq => if bq.len = 0 then (bq, none) else (bq, some (.flushTimeout bq.len))
  | ev :: rest, bq =>
    if bq.len = 0 then (bq, none)
    else
      match ev with
      | none => (bq, some (.flushTimeout bq.len))
      | some ss => flushLoop rest (retryQueued ss bq).1

/-- Model of `ProxyFile.close` (client.py lines 190–212): return immediately
when the socket is already closed (`fileno() == -1`); otherwise flush the
queue, half-close, and expect a `GOODBYE` response, decoding any other
response as an exception — all under a `finally: self.sock.close()`, so the
socket ends closed on every path, error or not. -/
def pfClose (s : PFState) (fsched : List (Option (List SendOut)))
    (rsched : List RecvEv) : PFState × Option CloseErr :=
  if s.sockOpen = false then (s, none)
  else
    let r := flushLoop fsched s.queue
    let res : Option CloseErr :=
      match r.2 with
      | some e => some e
      | none =>
          match recvMsg [] rsched with
          | .error e => some (.recvFail e)
          | .ok (resp, _) =>
              if resp = GOODBYE then none
              else some (.badResponse (makeException resp).1 (makeException resp).2)
    ({ sockOpen := false, queue := r.1 }, res)

/-! ### `FileHandler` (src/ulog/server.py lines 73–134) -/

/-- Log records emitted by `FileHandler.write` that matter to the claims:
the `logger.info` for a new client and the `logger.warning` for a failed
open.  No record is emitted on a failed write/flush. -/
inductive LogEntry
  | newClientInfo (cid : Nat)
  | openFailWarning
deriving DecidableEq

/-- Model of a `FileHandler` instance (server.py lines 76–79): the path, the
set of attached client ids (a duplicate-free list; insertion is guarded by
membership exactly as in the source), and the optional open file.  The file,
when open, is represented by the bytes appended through this handler (the
file is opened in append mode, so pre-existing contents are out of scope). -/
structure FHandler where
  filepath : String
  clients : List Nat
  file : Option (List Nat)
deriving DecidableEq

/-- Model of `FileHandler.write` (server.py lines 87–110), with the
filesystem's behaviour supplied as two oracles: whether `open(filepath, 'ab')`
fails, and whether the `write`/`flush` pair fails.  The translation follows
the source line by line: register the client (with an info log) if new; open
the file lazily when absent, logging a warning and returning on failure; then
write and flush, returning silently on failure (`# Nothing to be done.`).
Python's method returns `None` on every path — there is no error value. -/
def FHandler.write (h : FHandler) (client_id : Nat) (msg : List Nat)
    (openFails writeFails : Bool) : FHandler × List LogEntry :=
  let p1 :=
    if client_id ∈ h.clients then (h, ([] : List LogEntry))
    else ({ h with clients := h.clients ++ [client_id] },
          [LogEntry.newClientInfo client_id])
  match p1.1.file with
  | none =>
      if openFails then (p1.1, p1.2 ++ [LogEntry.openFailWarning])
      else
        -- open succeeded; fall through to `if self.file is not None:` and write
        if writeFails then ({ p1.1 with file := some [] }, p1.2)
        else ({ p1.1 with file := some msg }, p1.2)
  | some contents =>
      if writeFails then (p1.1, p1.2)
      else ({ p1.1 with file := some (contents ++ msg) }, p1.2)

/-- First handler registered under a path, mirroring `cls.instances[filepath]`
(the registry is a dict keyed by path, modelled as an association list in
insertion order). -/
def assocFindH : List (String × FHandler) → String → Option FHandler
  | [], _ => none
  | (k, h) :: rest, p => if k = p then some h else assocFindH rest p

/-- Replace the handler registered under a path (in-place mutation of the
dict value's object in Python). -/
def assocUpdateH (reg : List (String × FHandler)) (p : String) (h : FHandler) :
    List (String × FHandler) :=
  reg.map (fun e => if e.1 = p then (p, h) else e)

/-- Model of `FileHandler.instance` (server.py lines 81–85): return the
registered handler, or construct one with `__init__` (clients empty, file
`None` — note: the file is not opened here) and register it. -/
def FHandler.instance' (reg : List (String × FHandler)) (p : String) :
    List (String × FHandler) × FHandler :=
  match assocFindH reg p with
  | some h => (reg, h)
  | none =>
      let h : FHandler := ⟨p, [], none⟩
      (reg ++ [(p, h)], h)

/-- Model of `FileHandler.instance(filepath)` followed by
`handler.client_done(client_id)` (server.py lines 112–129), at registry
level: discard the client id from the handler's set (Python `set.remove`);
when the set empties, `close()` deletes the handler from the registry. -/
def client_done (reg : List (String × FHandler)) (filepath : String)
    (client_id : Nat) : List (String × FHandler) :=
  let r := FHandler.instance' reg filepath
  if client_id ∈ r.2.clients then
    let h' : FHandler :=
      { r.2 with clients := r.2.clients.filter (fun c => decide (c ≠ client_id)) }
    if h'.clients = [] then r.1.filter (fun e => decide (e.1 ≠ filepath))
    else assocUpdateH r.1 filepath h'
  else r.1

/-! ### Server control requests (src/ulog/server.py lines 19–20, 226–289) -/

/-- ASCII bytes of `ERR_INVALID_COMMAND = b'error: invalid command'`. -/
def ERR_INVALID_COMMAND : List Nat :=
  [101, 114, 114, 111, 114, 58, 32, 105, 110, 118, 97, 108, 105, 100, 32,
   99, 111, 109, 109, 97, 110, 100]

/-- ASCII bytes of
`ERR_EMBEDDED_NULLS = b'error: embedded null character in filepath'`. -/
def ERR_EMBEDDED_NULLS : List Nat :=
  [101, 114, 114, 111, 114, 58, 32, 101, 109, 98, 101, 100, 100, 101, 100, 32,
   110, 117, 108, 108, 32, 99, 104, 97, 114, 97, 99, 116, 101, 114, 32,
   105, 110, 32, 102, 105, 108, 101, 112, 97, 116, 104]

/-- ASCII bytes of `b'ok'` — the success response of `cmd_check_access` and
`cmd_done` (server.py lines 246 and 255). -/
def RESP_OK_LOWER : List Nat := [111, 107]

/-- ASCII bytes of `b'hello'`. -/
def CMD_HELLO : List Nat := [104, 101, 108, 108, 111]

/-- ASCII bytes of `b'check_access'`. -/
def CMD_CHECK_ACCESS : List Nat := [99, 104, 101, 99, 107, 95, 97, 99, 99, 101, 115, 115]

/-- ASCII bytes of `b'done'`. -/
def CMD_DONE : List Nat := [100, 111, 110, 101]

/-- ASCII bytes of `b'welcome'`. -/
def WELCOME : List Nat := [119, 101, 108, 99, 111, 109, 101]

/-- Decimal ASCII digits of a natural number, for `b'welcome\x00%d'`. -/
def natDigitsAscii (n : Nat) : List Nat := (Nat.toDigits 10 n).map Char.toNat

/-- Model of `Server.cmd_hello` (server.py lines 226–228): the response
`b'welcome\x00%d' % client_id`. -/
def cmd_hello (client_id : Nat) : List Nat :=
  WELCOME ++ 0 :: natDigitsAscii client_id

/-- Model of the response of `Server.cmd_check_access` (server.py lines
230–246).  The filesystem's answer to `open(filepath, 'ab')` is the oracle
`openErr`: `none` means the open succeeded (response `b'ok'`), `some emsg`
means it failed with formatted exception text `emsg` (which is returned
verbatim as the response).  `os.path.abspath`/`os.fsdecode` only affect which
file is probed, not the response shape, and are absorbed into the oracle. -/
def cmd_check_access (filepath : List Nat) (openErr : Option (List Nat)) : List Nat :=
  if 0 ∈ filepath then ERR_EMBEDDED_NULLS
  else
    match openErr with
    | some emsg => emsg
    | none => RESP_OK_LOWER

/-- Response of `Server.cmd_done` (server.py lines 248–255); its side effects
(cancel_timeout, client_done) are modelled in the server state machine
below. -/
def cmd_done_resp (filepath : List Nat) : List Nat :=
  if 0 ∈ filepath then ERR_EMBEDDED_NULLS else RESP_OK_LOWER

/-- Model of `Server.handle_control_request` (server.py lines 257–289) for a
received message: split at the first NUL into command and argument
(`msg.split(b'\x00', 1)`), dispatch, and return the response passed to
`sock.send` — sent exactly as returned, with no NUL terminator appended.  An
empty message means the client disconnected (no response, `none`). -/
def handle_control_request (msg : List Nat) (client_id : Nat)
    (openErr : Option (List Nat)) : Option (List Nat) :=
  if msg = [] then none
  else
    let command := msg.takeWhile (· != 0)
    let arg : List Nat := if 0 ∈ msg then msg.drop (command.length + 1) else []
    some (
      if command = CMD_HELLO ∧ arg = [] then cmd_hello client_id
      else if command = CMD_CHECK_ACCESS then cmd_check_access arg openErr
      else if command = CMD_DONE then cmd_done_resp arg
      else ERR_INVALID_COMMAND)

/-! ### Inactivity timeouts (src/ulog/server.py lines 16–17, 29–71, 291–327)

The `Task`/`TaskQueue` machinery is modelled with a discrete clock: a task is
its id, its due time and its `(client_id, filepath)` key (its payload is
always `do_timeout` for that key).  `TaskQueue` keeps tasks sorted so that
`pop()` returns the soonest-due task; here the pending tasks are an unordered
list and firing selects a task of minimal due time. -/

/-- `FILE_CLOSE_TIMEOUT = 5` (server.py lines 16–17). -/
def FILE_CLOSE_TIMEOUT : Nat := 5

/-- A pending `Task(FILE_CLOSE_TIMEOUT, do_timeout, client_id, filepath)`. -/
structure STask where
  tid : Nat
  dueAt : Nat
  key : Nat × String
deriving DecidableEq

/-- The server state relevant to the timeout machinery: the clock
(`monotonic()`), the pending task list (`self.tasks`), the
`self.timeout_tasks` dict mapping `(client_id, filepath)` to its task, a
fresh task-id counter (Python distinguishes task objects by identity), and
the `FileHandler` registry. -/
structure SrvState where
  now : Nat
  tasks : List STask
  timeoutTasks : List ((Nat × String) × Nat)
  nextTaskId : Nat
  reg : List (String × FHandler)
deriving DecidableEq

/-- Dict lookup in `self.timeout_tasks`. -/
def assocFindT : List ((Nat × String) × Nat) → Nat × String → Option Nat
  | [], _ => none
  | (k, v) :: rest, key => if k = key then some v else assocFindT rest key

/-- Dict deletion (`pop`) from `self.timeout_tasks`. -/
def assocRemoveT (l : List ((Nat × String) × Nat)) (key : Nat × String) :
    List ((Nat × String) × Nat) :=
  l.filter (fun e => decide (e.1 ≠ key))

/-- Model of `Server.set_timeout` (server.py lines 291–295): create a task
due `FILE_CLOSE_TIMEOUT` seconds from now, add it to the task queue, and
store it in `timeout_tasks[client_id, filepath]` (dict assignment overwrites
any previous binding for the key). -/
def set_timeout (s : SrvState) (client_id : Nat) (filepath : String) : SrvState :=
  let task : STask := ⟨s.nextTaskId, s.now + FILE_CLOSE_TIMEOUT, (client_id, filepath)⟩
  { s with
      tasks := s.tasks ++ [task]
      timeoutTasks := ((client_id, filepath), task.tid)
        :: assocRemoveT s.timeoutTasks (client_id, filepath)
      nextTaskId := s.nextTaskId + 1 }

/-- Model of `Server.cancel_timeout` (server.py lines 297–301): pop the key's
task from the dict, and when present remove that task from the task queue
(`self.tasks.cancel(task)` removes by identity, here by task id). -/
def cancel_timeout (s : SrvState) (client_id : Nat) (filepath : String) : SrvState :=
  match assocFindT s.timeoutTasks (client_id, filepath) with
  | none => s
  | some tid =>
      { s with
          timeoutTasks := assocRemoveT s.timeoutTasks (client_id, filepath)
          tasks := s.tasks.eraseP (fun t => decide (t.tid = tid)) }

/-- Model of `Server.do_timeout` (server.py lines 303–307): detach the client
from the file's handler (`FileHandler.instance(filepath).client_done(...)`)
and delete the dict entry (`del self.timeout_tasks[...]`; in Python a missing
key would raise `KeyError` — the invariant below shows it is present when a
pending task fires). -/
def do_timeout (s : SrvState) (client_id : Nat) (filepath : String) : SrvState :=
  { s with
      reg := client_done s.reg filepath client_id
      timeoutTasks := assocRemoveT s.timeoutTasks (client_id, filepath) }

/-- Model of `Server.handle_write_request` (server.py lines 309–327) after
argument validation: write the message through the path's handler, then
`cancel_timeout` and `set_timeout` for the `(client_id, filepath)` pair.  The
filesystem oracles are as in `FHandler.write`. -/
def handle_write_request (s : SrvState) (client_id : Nat) (filepath : String)
    (message : List Nat) (openFails writeFails : Bool) : SrvState :=
  let r := FHandler.instance' s.reg filepath
  let h' := (FHandler.write r.2 client_id message openFails writeFails).1
  let s1 := { s with reg := assocUpdateH r.1 filepath h' }
  let s2 := cancel_timeout s1 client_id filepath
  set_timeout s2 client_id filepath

/-- The soonest-due pending task (what `self.tasks.pop()` returns from the
sorted `TaskQueue`); ties are broken towards the front of the list. -/
def nextDue : List STask → Option STask
  | [] => none
  | t :: rest =>
      match nextDue rest with
      | none => some t
      | some u => if t.dueAt ≤ u.dueAt then some t else some u

/-- Firing of the next due task by the main loop (server.py lines 360–363):
pop it from the task queue, advance the clock to its due time, and run
`do_timeout` for its key. -/
def fire (s : SrvState) : SrvState :=
  match nextDue s.tasks with
  | none => s
  | some t =>
      do_timeout { s with tasks := s.tasks.erase t, now := max s.now t.dueAt }
        t.key.1 t.key.2

/-- Server events that touch the timeout machinery. -/
inductive SOp
  | writeReq (client_id : Nat) (filepath : String) (message : List Nat)
      (openFails writeFails : Bool)
  | doneReq (client_id : Nat) (filepath : String)
  | fireNext
  | tick (dt : Nat)
deriving DecidableEq

/-- Apply one server event.  `doneReq` mirrors `cmd_done`:
`cancel_timeout` then `client_done`. -/
def applySOp (s : SrvState) : SOp → SrvState
  | .writeReq c p m o w => handle_write_request s c p m o w
  | .doneReq c p =>
      let s1 := cancel_timeout s c p
      { s1 with reg := client_done s1.reg p c }
  | .fireNext => fire s
  | .tick d => { s with now := s.now + d }

/-- The server's initial state (no tasks, empty registry, clock at zero). -/
def initSrv : SrvState := ⟨0, [], [], 0, []⟩

/-- Run a sequence of server events from the initial state. -/
def runSrv (ops : List SOp) : SrvState := ops.foldl applySOp initSrv

/-- Internal invariant of the timeout machinery: every pending task is
recorded in `timeout_tasks` under its key, task ids are below the counter,
and task ids are pairwise distinct. -/
def TaskInv (s : SrvState) : Prop :=
  (∀ t ∈ s.tasks, assocFindT s.timeoutTasks t.key = some t.tid) ∧
  (∀ t ∈ s.tasks, t.tid < s.nextTaskId) ∧
  (s.tasks.map STask.tid).Nodup

/-- Decidable check that firing the next due task detaches its client from
its file's handler: after `fire`, the task's client id is no longer in the
clients set of the handler registered (if any) under the task's path. -/
def fireDetached (s : SrvState) : Bool :=
  match nextDue s.tasks with
  | none => true
  | some t =>
      match assocFindH (fire s).reg t.key.2 with
      | none => true
      | some h => decide (t.key.1 ∉ h.clients)

/-- The due times of the pending tasks for one `(client_id, filepath)` key. -/
def taskDueTimes (s : SrvState) (key : Nat × String) : List Nat :=
  (s.tasks.filter (fun t => decide (t.key = key))).map STask.dueAt

/-! ## Lemmas about the byte queue -/

lemma q_ne_nil_of_len_ne_zero (bq : ByteQueue) (h : bq.len ≠ 0) : bq.q ≠ [] := by
  intro hq
  apply h
  obtain ⟨q⟩ := bq
  simp only at hq
  subst hq
  rfl

lemma len_cons_ne_zero (c : List Nat) (rest : List (List Nat))
    (hc : 0 < c.length) : ByteQueue.len ⟨c :: rest⟩ ≠ 0 := by
  simp only [ByteQueue.len, List.length_cons, List.headD]
  split <;> omega

lemma bufsize_pos : 0 < BUFSIZE := by decide

lemma bytes_eq_nil_of_len_zero (bq : ByteQueue) (h : bq.len = 0) : bq.bytes = [] := by
  obtain ⟨q⟩ := bq
  match q with
  | [] => rfl
  | [c] =>
      simp only [ByteQueue.len] at h
      norm_num at h
      simp [ByteQueue.bytes, h]
  | [c, d] =>
      simp only [ByteQueue.len, List.getLastD] at h
      norm_num at h
      simp [ByteQueue.bytes, h.1, h.2]
  | c :: d :: e :: rest =>
      exfalso
      simp only [ByteQueue.len, List.length_cons] at h
      rw [if_neg (by omega), if_pos (by omega), if_pos (by omega)] at h
      have hb : 0 < BUFSIZE * (rest.length + 1 + 1 + 1 - 2) :=
        Nat.mul_pos bufsize_pos (by omega)
      omega

lemma putChunksAux_flatten : ∀ (fuel : Nat) (data : List Nat),
    data.length ≤ fuel → (putChunksAux fuel data).flatten = data := by
  intro fuel
  induction fuel with
  | zero =>
      intro data h
      have : data = [] := List.eq_nil_of_length_eq_zero (by omega)
      subst this; rfl
  | succ n ih =>
      intro data h
      match data with
      | [] => rfl
      | a :: as =>
          simp only [putChunksAux, List.flatten_cons]
          have hb := bufsize_pos
          simp only [List.length_cons] at h
          rw [ih ((a :: as).drop BUFSIZE)
            (by simp only [List.length_drop, List.length_cons]; omega)]
          exact List.take_append_drop _ _

lemma putChunks_flatten (data : List Nat) : (putChunks data).flatten = data :=
  putChunksAux_flatten _ _ le_rfl

lemma putChunks_nil : putChunks [] = [] := rfl

lemma putChunks_eq_nil (data : List Nat) (h : putChunks data = []) : data = [] := by
  have := putChunks_flatten data
  rw [h] at this
  exact this.symm

lemma fel_cons_full {c : List Nat} {rest : List (List Nat)}
    (hc : c.length = BUFSIZE) (hr : FullExceptLast rest) :
    FullExceptLast (c :: rest) := by
  match rest with
  | [] => exact ⟨by rw [hc]; exact bufsize_pos, le_of_eq hc⟩
  | d :: rest' => exact ⟨hc, hr⟩

lemma fel_putChunksAux : ∀ (fuel : Nat) (data : List Nat),
    data.length ≤ fuel → FullExceptLast (putChunksAux fuel data) := by
  intro fuel
  induction fuel with
  | zero => intro data h; exact trivial
  | succ n ih =>
      intro data h
      match data with
      | [] => exact trivial
      | a :: as =>
          simp only [putChunksAux]
          have hb := bufsize_pos
          simp only [List.length_cons] at h
          by_cases hlen : (a :: as).length ≤ BUFSIZE
          · have hdrop : (a :: as).drop BUFSIZE = [] :=
              List.drop_eq_nil_of_le hlen
            rw [hdrop]
            have haux : putChunksAux n [] = [] := by cases n <;> rfl
            rw [haux]
            constructor
            · simp only [List.length_take, List.length_cons]
              omega
            · simp only [List.length_take, List.length_cons]
              omega
          · have htake : ((a :: as).take BUFSIZE).length = BUFSIZE := by
              simp only [List.length_take, List.length_cons]
              simp only [List.length_cons] at hlen
              omega
            refine fel_cons_full htake (ih _ ?_)
            simp only [List.length_drop, List.length_cons]
            omega

lemma flatten_dropLast_getLastD (q : List (List Nat)) (h : q ≠ []) :
    q.dropLast.flatten ++ q.getLastD [] = q.flatten := by
  induction q with
  | nil => exact absurd rfl h
  | cons a q ih =>
      match q with
      | [] => simp
      | b :: q' =>
          simp only [List.dropLast_cons₂, List.flatten_cons, List.getLastD_cons,
            List.append_assoc]
          have ih' := ih (by simp)
          simp only [List.getLastD_cons, List.flatten_cons] at ih'
          rw [ih']

lemma bytes_put (bq : ByteQueue) (data : List Nat) :
    (bq.put data).bytes = bq.bytes ++ data := by
  simp only [ByteQueue.put]
  by_cases h : bq.len ≠ 0
  · rw [if_pos h]
    have hq := q_ne_nil_of_len_ne_zero bq h
    by_cases ha : BUFSIZE - (bq.q.getLastD []).length ≠ 0
    · rw [if_pos ha]
      simp only [ByteQueue.bytes, List.flatten_append, List.flatten_cons]
      rw [putChunks_flatten]
      rw [← flatten_dropLast_getLastD bq.q hq]
      simp [List.take_append_drop]
    · rw [if_neg ha]
      simp only [ByteQueue.bytes, List.flatten_append]
      rw [putChunks_flatten]
  · rw [if_neg h]
    simp only [ByteQueue.bytes, List.flatten_append]
    rw [putChunks_flatten]

lemma fel_putChunks (data : List Nat) : FullExceptLast (putChunks data) :=
  fel_putChunksAux _ _ le_rfl

lemma getLastD_single (a : List Nat) : ([a] : List (List Nat)).getLastD [] = a := rfl

lemma getLastD_cons2 (a b : List Nat) (l : List (List Nat)) :
    (a :: b :: l).getLastD [] = (b :: l).getLastD [] := rfl

lemma wf_of_fel : ∀ {l : List (List Nat)}, FullExceptLast l → QueueWF l := by
  intro l hl
  match l with
  | [] => exact trivial
  | [c] => exact ⟨hl, trivial⟩
  | c :: d :: l' => exact ⟨⟨by rw [hl.1]; exact bufsize_pos, le_of_eq hl.1⟩, hl.2⟩

lemma fel_last_le : ∀ {l : List (List Nat)}, FullExceptLast l →
    (l.getLastD []).length ≤ BUFSIZE := by
  intro l hl
  match l with
  | [] => simp [List.getLastD]
  | [c] => rw [getLastD_single]; exact hl.2
  | c :: d :: l' =>
      rw [getLastD_cons2]
      exact fel_last_le (l := d :: l') hl.2

lemma fel_append_full : ∀ (l l2 : List (List Nat)), FullExceptLast l →
    (l ≠ [] → (l.getLastD []).length = BUFSIZE) → FullExceptLast l2 →
    FullExceptLast (l ++ l2) := by
  intro l
  induction l with
  | nil => intro l2 _ _ h2; exact h2
  | cons a l ih =>
      intro l2 hl hlast h2
      match l with
      | [] =>
          have ha : a.length = BUFSIZE := by
            have := hlast (by simp)
            rwa [getLastD_single] at this
          exact fel_cons_full ha h2
      | b :: l' =>
          refine fel_cons_full hl.1 (ih l2 hl.2 ?_ h2)
          intro _
          have := hlast (by simp)
          rwa [getLastD_cons2] at this

lemma fel_fill : ∀ (l : List (List Nat)), l ≠ [] → FullExceptLast l →
    ∀ (extra : List Nat) (chunks : List (List Nat)),
    (l.getLastD []).length + extra.length ≤ BUFSIZE →
    (chunks ≠ [] → (l.getLastD []).length + extra.length = BUFSIZE) →
    FullExceptLast chunks →
    FullExceptLast (l.dropLast ++ (l.getLastD [] ++ extra) :: chunks) := by
  intro l
  induction l with
  | nil => intro h; exact absurd rfl h
  | cons a l ih =>
      intro _ hl extra chunks hfill hfull hch
      match l with
      | [] =>
          rw [getLastD_single] at hfill hfull ⊢
          simp only [List.dropLast_single, List.nil_append]
          match chunks with
          | [] =>
              refine ⟨?_, ?_⟩
              · simp only [List.length_append]
                have := hl.1
                omega
              · simp only [List.length_append]
                omega
          | c' :: ch' =>
              refine fel_cons_full ?_ hch
              simp only [List.length_append]
              have := hfull (by simp)
              omega
      | b :: l' =>
          rw [getLastD_cons2] at hfill hfull ⊢
          simp only [List.dropLast_cons₂, List.cons_append]
          exact fel_cons_full hl.1 (ih (by simp) hl.2 extra chunks hfill hfull hch)

lemma wf_nil_of_len_zero (bq : ByteQueue) (hwf : QueueWF bq.q) (h : ¬ bq.len ≠ 0) :
    bq.q = [] := by
  push_neg at h
  obtain ⟨q⟩ := bq
  match q with
  | [] => rfl
  | c :: rest =>
      exact absurd h (len_cons_ne_zero c rest hwf.1.1)

lemma wf_put (bq : ByteQueue) (data : List Nat) (h : QueueWF bq.q) :
    QueueWF (bq.put data).q := by
  simp only [ByteQueue.put]
  by_cases hlen : bq.len ≠ 0
  · rw [if_pos hlen]
    have hq := q_ne_nil_of_len_ne_zero bq hlen
    obtain ⟨q⟩ := bq
    match q with
    | [] => exact absurd rfl hq
    | c :: rest =>
        simp only
        by_cases ha : BUFSIZE - ((c :: rest).getLastD []).length ≠ 0
        · rw [if_pos ha]
          match rest with
          | [] =>
              rw [getLastD_single] at ha ⊢
              simp only [List.dropLast_single, List.nil_append]
              refine ⟨⟨?_, ?_⟩, fel_putChunks _⟩
              · simp only [List.length_append]
                have := h.1.1
                omega
              · simp only [List.length_append, List.length_take]
                have := h.1.2
                omega
          | b :: rest' =>
              rw [getLastD_cons2] at ha ⊢
              simp only [List.dropLast_cons₂, List.cons_append]
              have hle := fel_last_le (l := b :: rest') h.2
              refine ⟨h.1, ?_⟩
              refine fel_fill (b :: rest') (by simp) h.2
                (data.take (BUFSIZE - ((b :: rest').getLastD []).length))
                (putChunks (data.drop (BUFSIZE - ((b :: rest').getLastD []).length)))
                ?_ ?_ (fel_putChunks _)
              · simp only [List.length_take]
                omega
              · intro hc
                have hdata : ¬ data.length ≤ BUFSIZE - ((b :: rest').getLastD []).length := by
                  intro hle2
                  exact hc (by
                    have hd : data.drop (BUFSIZE - ((b :: rest').getLastD []).length) = [] :=
                      List.drop_eq_nil_of_le hle2
                    rw [hd, putChunks_nil])
                simp only [List.length_take]
                omega
        · rw [if_neg ha]
          match rest with
          | [] =>
              refine ⟨h.1, ?_⟩
              show FullExceptLast ([] ++ putChunks data)
              simpa using fel_putChunks data
          | b :: rest' =>
              refine ⟨h.1, ?_⟩
              rw [getLastD_cons2] at ha
              have hle := fel_last_le (l := b :: rest') h.2
              exact fel_append_full (b :: rest') (putChunks data) h.2
                (fun _ => by omega) (fel_putChunks data)
  · rw [if_neg hlen]
    have hq := wf_nil_of_len_zero bq h hlen
    rw [hq]
    exact wf_of_fel (fel_putChunks data)

lemma wf_done (bq : ByteQueue) (n : Nat) (h : QueueWF bq.q) :
    QueueWF (bq.done n).q := by
  simp only [ByteQueue.done]
  by_cases hn : n = 0
  · rw [if_pos hn]; exact h
  · rw [if_neg hn]
    obtain ⟨q⟩ := bq
    match q with
    | [] => exact h
    | c :: rest =>
        simp only
        by_cases hlt : n < c.length
        · rw [if_pos hlt]
          refine ⟨⟨?_, ?_⟩, h.2⟩
          · simp only [List.length_drop]; omega
          · simp only [List.length_drop]
            have := h.1.2
            omega
        · rw [if_neg hlt]
          exact wf_of_fel h.2

lemma fel_flatten_length : ∀ (l : List (List Nat)), FullExceptLast l → l ≠ [] →
    l.flatten.length = BUFSIZE * (l.length - 1) + (l.getLastD []).length := by
  intro l
  induction l with
  | nil => intro _ h; exact absurd rfl h
  | cons a l ih =>
      intro hl _
      match l with
      | [] => simp [getLastD_single]
      | b :: l' =>
          rw [getLastD_cons2]
          have step := ih hl.2 (by simp)
          have e1 : (a :: b :: l').flatten.length = a.length + (b :: l').flatten.length := by
            simp
          rw [e1, step, hl.1]
          simp only [List.length_cons, Nat.add_sub_cancel, Nat.mul_succ]
          omega

lemma len_eq_bytes_length (bq : ByteQueue) (h : QueueWF bq.q) :
    bq.len = bq.bytes.length := by
  obtain ⟨q⟩ := bq
  match q with
  | [] => rfl
  | [c] =>
      simp [ByteQueue.len, ByteQueue.bytes]
  | c :: b :: rest =>
      have step := fel_flatten_length (b :: rest) h.2 (by simp)
      simp only [List.length_cons, Nat.add_sub_cancel] at step
      simp only [ByteQueue.len, ByteQueue.bytes, List.length_cons, List.headD,
        List.flatten_cons, List.length_append]
      rw [if_neg (by omega), if_pos (by omega), getLastD_cons2]
      cases rest with
      | nil =>
          rw [if_neg (by simp), getLastD_single]
          simp only [List.flatten_cons, List.flatten_nil, List.length_append,
            List.length_nil]
          omega
      | cons e rest' =>
          rw [if_pos (by simp only [List.length_cons]; omega)]
          simp only [List.flatten_cons, List.length_append, List.length_cons] at step ⊢
          have harith : rest'.length + 1 + 1 + 1 - 2 = rest'.length + 1 := by omega
          rw [harith]
          simp only [BUFSIZE, Nat.mul_succ] at step ⊢
          omega

lemma wf_runQOps_aux : ∀ (ops : List QOp) (bq : ByteQueue), QueueWF bq.q →
    QueueWF (ops.foldl ByteQueue.applyOp bq).q := by
  intro ops
  induction ops with
  | nil => intro bq h; exact h
  | cons op ops ih =>
      intro bq h
      simp only [List.foldl_cons]
      refine ih _ ?_
      match op with
      | .put data => exact wf_put bq data h
      | .done n => exact wf_done bq n h

lemma wf_runQOps (ops : List QOp) : QueueWF (runQOps ops).q :=
  wf_runQOps_aux ops ⟨[]⟩ trivial

lemma fel_dropLast_full : ∀ (l : List (List Nat)), FullExceptLast l →
    ∀ c ∈ l.dropLast, c.length = BUFSIZE := by
  intro l
  induction l with
  | nil => intro _ c hc; simp at hc
  | cons a l ih =>
      intro hl c hc
      match l with
      | [] => simp at hc
      | b :: l' =>
          rw [List.dropLast_cons₂] at hc
          rcases List.mem_cons.mp hc with h1 | h2
          · rw [h1]; exact hl.1
          · exact ih hl.2 c h2

lemma wf_interior (q : List (List Nat)) (h : QueueWF q) :
    ∀ c ∈ (q.drop 1).dropLast, c.length = BUFSIZE := by
  match q with
  | [] => intro c hc; simp at hc
  | a :: rest =>
      intro c hc
      simp only [List.drop_one, List.tail_cons] at hc
      exact fel_dropLast_full rest h.2 c hc

lemma peek_take_bytes (bq : ByteQueue) (hq : bq.q ≠ []) :
    bq.peek = bq.bytes.take bq.peek.length := by
  obtain ⟨q⟩ := bq
  match q with
  | [] => exact absurd rfl hq
  | c :: rest =>
      show c = ((c :: rest).flatten).take c.length
      rw [List.flatten_cons, List.take_append_eq_append_take]
      simp

lemma take_bytes_of_le_peek (bq : ByteQueue) (hq : bq.q ≠ []) (m : Nat)
    (hm : m ≤ bq.peek.length) : bq.bytes.take m = bq.peek.take m := by
  obtain ⟨q⟩ := bq
  match q with
  | [] => exact absurd rfl hq
  | c :: rest =>
      show ((c :: rest).flatten).take m = c.take m
      rw [List.flatten_cons, List.take_append_eq_append_take]
      have : m - c.length = 0 := by
        simp only [ByteQueue.peek, List.headD] at hm
        omega
      rw [this]
      simp

lemma bytes_done (bq : ByteQueue) (n : Nat) (hq : bq.q ≠ [])
    (hn : n ≤ bq.peek.length) : (bq.done n).bytes = bq.bytes.drop n := by
  simp only [ByteQueue.done]
  by_cases h0 : n = 0
  · rw [if_pos h0, h0]
    simp
  · rw [if_neg h0]
    obtain ⟨q⟩ := bq
    match q with
    | [] => exact absurd rfl hq
    | c :: rest =>
        simp only [ByteQueue.peek, List.headD] at hn
        simp only
        by_cases hlt : n < c.length
        · rw [if_pos hlt]
          show (c.drop n :: rest).flatten = ((c :: rest).flatten).drop n
          rw [List.flatten_cons, List.flatten_cons, List.drop_append_eq_append_drop]
          have : n - c.length = 0 := by omega
          rw [this]
          simp
        · rw [if_neg hlt]
          have hn' : n = c.length := by omega
          show rest.flatten = ((c :: rest).flatten).drop n
          rw [List.flatten_cons, List.drop_append_eq_append_drop, hn']
          simp

/-! ## Claim theorems for the byte queue -/

/-- C6 (confirmed): for every `_ByteQueue` state reachable from the empty
queue by `put` and `done` operations, every interior chunk of the deque holds
exactly `BUFSIZE` (4096) bytes — only the first and last chunks may be
partially filled — and `__len__` returns the total number of queued bytes. -/
theorem c6_queue_invariant (ops : List QOp) :
    (∀ c ∈ ((runQOps ops).q.drop 1).dropLast, c.length = BUFSIZE) ∧
    (runQOps ops).len = (runQOps ops).bytes.length := by
  have hwf := wf_runQOps ops
  exact ⟨wf_interior _ hwf, len_eq_bytes_length _ hwf⟩

/-- C7 (confirmed): whenever the queue is non-empty and `n` is at most the
size of the head chunk returned by `peek` (as it is when `n` counts bytes
sent out of `peek()`'s result), `done(n)` removes exactly the first `n` bytes
of the queue, leaving the remaining bytes unchanged and in order, and `peek`
returns a prefix of the queued bytes (the head chunk's contents). -/
theorem c7_done_removes (bq : ByteQueue) (n : Nat) (hq : bq.q ≠ [])
    (hn : n ≤ bq.peek.length) :
    (bq.done n).bytes = bq.bytes.drop n ∧
    bq.peek = bq.bytes.take bq.peek.length := by
  exact ⟨bytes_done bq n hq hn, peek_take_bytes bq hq⟩

/-- Witness for C7 at the concrete state `[[1, 2], [3]]` with `n = 1`. -/
theorem c7_done_removes_witness :
    ((⟨[[1, 2], [3]]⟩ : ByteQueue).q ≠ [] ∧
      1 ≤ (⟨[[1, 2], [3]]⟩ : ByteQueue).peek.length) ∧
    (((⟨[[1, 2], [3]]⟩ : ByteQueue).done 1).bytes
        = (⟨[[1, 2], [3]]⟩ : ByteQueue).bytes.drop 1 ∧
      (⟨[[1, 2], [3]]⟩ : ByteQueue).peek
        = (⟨[[1, 2], [3]]⟩ : ByteQueue).bytes.take
            (⟨[[1, 2], [3]]⟩ : ByteQueue).peek.length) :=
  ⟨⟨by decide, by decide⟩, c7_done_removes ⟨[[1, 2], [3]]⟩ 1 (by decide) (by decide)⟩

/-! ## Lemmas about streaming writes -/

lemma retry_sound : ∀ (sched : List SendOut) (bq : ByteQueue),
    (retryQueued sched bq).2.1 ++ (retryQueued sched bq).1.bytes = bq.bytes := by
  intro sched
  induction sched with
  | nil => intro bq; simp [retryQueued]
  | cons ev rest ih =>
      intro bq
      simp only [retryQueued]
      by_cases h : bq.len = 0
      · rw [if_pos h]
        simp
      · rw [if_neg h]
        match ev with
        | .block => simp
        | .ok n =>
            simp only
            have hq := q_ne_nil_of_len_ne_zero bq h
            have hn : min n bq.peek.length ≤ bq.peek.length := min_le_right _ _
            have hdone := bytes_done bq (min n bq.peek.length) hq hn
            have htake := take_bytes_of_le_peek bq hq (min n bq.peek.length) hn
            have hih := ih (bq.done (min n bq.peek.length))
            rw [List.append_assoc, hih, hdone, ← htake]
            exact List.take_append_drop _ _

lemma retry_rest_monotone : ∀ (sched : List SendOut) (bq : ByteQueue),
    monotoneSched sched = true →
    (retryQueued sched bq).1.len = 0 ∨
      allBlockSched (retryQueued sched bq).2.2 = true := by
  intro sched
  induction sched with
  | nil => intro bq _; right; rfl
  | cons ev rest ih =>
      intro bq hm
      simp only [retryQueued]
      by_cases h : bq.len = 0
      · rw [if_pos h]; left; exact h
      · rw [if_neg h]
        match ev with
        | .block =>
            right
            simpa [monotoneSched] using hm
        | .ok n =>
            simp only
            exact ih _ (by simpa [monotoneSched] using hm)

lemma sendNew_sound : ∀ (sched : List SendOut) (data : List Nat),
    (sendNew sched data).1 ++ ((sendNew sched data).2.1.getD []) = data := by
  intro sched
  induction sched with
  | nil =>
      intro data
      by_cases h : data = [] <;> simp [sendNew, h]
  | cons ev rest ih =>
      intro data
      simp only [sendNew]
      by_cases h : data = []
      · rw [if_pos h]; simp [h]
      · rw [if_neg h]
        match ev with
        | .block => simp
        | .ok n =>
            simp only
            rw [List.append_assoc, ih (data.drop (min n data.length))]
            exact List.take_append_drop _ _

lemma sendNew_allBlock : ∀ (sched : List SendOut) (data : List Nat),
    allBlockSched sched = true →
    (sendNew sched data).1 = [] ∧
      (sendNew sched data).2.1 = (if data = [] then none else some data) := by
  intro sched
  induction sched with
  | nil =>
      intro data _
      by_cases h : data = [] <;> simp [sendNew, h]
  | cons ev rest ih =>
      intro data hab
      simp only [sendNew]
      by_cases h : data = []
      · rw [if_pos h]; simp [h]
      · rw [if_neg h]
        match ev with
        | .block => simp [h]
        | .ok n => simp [allBlockSched] at hab

lemma pfWrite_monotone (bq : ByteQueue) (data : List Nat) (sched : List SendOut)
    (h : monotoneSched sched = true) :
    (pfWrite bq data sched).2 ++ (pfWrite bq data sched).1.bytes
      = bq.bytes ++ data := by
  have hsound := retry_sound sched bq
  rcases retry_rest_monotone sched bq h with hA | hB
  · have hzero := bytes_eq_nil_of_len_zero _ hA
    have hsn := sendNew_sound (retryQueued sched bq).2.2 data
    simp only [pfWrite]
    rcases hcase : (sendNew (retryQueued sched bq).2.2 data).2.1 with _ | rem
    · simp only [hcase]
      rw [hcase] at hsn
      simp only [Option.getD_none, List.append_nil] at hsn
      rw [hzero] at hsound
      simp only [List.append_nil] at hsound
      rw [List.append_assoc, hzero, List.append_nil, hsound, hsn]
    · simp only [hcase]
      rw [hcase] at hsn
      simp only [Option.getD_some] at hsn
      rw [bytes_put, hzero]
      rw [hzero] at hsound
      simp only [List.append_nil] at hsound
      simp only [List.nil_append, List.append_assoc]
      rw [hsn, hsound]
  · have hsn := sendNew_allBlock (retryQueued sched bq).2.2 data hB
    simp only [pfWrite]
    by_cases hd : data = []
    · rw [if_pos hd] at hsn
      rcases hsn with ⟨h1, h2⟩
      simp only [h2, h1]
      rw [hd]
      simpa using hsound
    · rw [if_neg hd] at hsn
      rcases hsn with ⟨h1, h2⟩
      simp only [h2, h1]
      rw [bytes_put, List.append_nil, ← List.append_assoc]
      rw [hsound]

lemma runWrites_monotone : ∀ (calls : List (List Nat × List SendOut)) (bq : ByteQueue),
    (∀ c ∈ calls, monotoneSched c.2 = true) →
    (runWrites bq calls).2 ++ (runWrites bq calls).1.bytes
      = bq.bytes ++ (calls.map Prod.fst).flatten := by
  intro calls
  induction calls with
  | nil => intro bq _; simp [runWrites]
  | cons c calls ih =>
      intro bq hm
      obtain ⟨data, sched⟩ := c
      simp only [runWrites, List.map_cons, List.flatten_cons]
      have hcall := pfWrite_monotone bq data sched (hm (data, sched) (List.mem_cons_self _ _))
      have hrest := ih (pfWrite bq data sched).1 (fun c hc => hm c (List.mem_cons_of_mem _ hc))
      rw [List.append_assoc, hrest, ← List.append_assoc, hcall, List.append_assoc]

lemma isPrefixOf_append (a b : List Nat) : a.isPrefixOf (a ++ b) = true := by
  induction a with
  | nil => simp [List.isPrefixOf]
  | cons x xs ih => simp [List.isPrefixOf, ih]

/-! ## Claim theorems for streaming write ordering (C1, C8) -/

/-- C1 counterexample: the claim "new data is never transmitted while the
send queue is non-empty / the transmitted stream is a prefix-ordered
concatenation of the write arguments" is false for `ProxyFile.write` as
written.  Concrete trace: `write(b"ab")` under a schedule that accepts one
byte then would-blocks leaves `b"b"` queued; a following `write(b"c")` whose
retry of the queued byte would-blocks but whose fresh send is accepted (the
socket became writable between the two send calls) transmits `b"c"` while
`b"b"` is still queued.  The socket then received `[97, 99]` (`"ac"`), not a
prefix of `[97, 98, 99]` (`"abc"`), and during the second call the queue was
non-empty (`len = 1 > 0`). -/
theorem c1_counterexample :
    (runWrites ⟨[]⟩ [([97, 98], [SendOut.ok 1, SendOut.block]),
        ([99], [SendOut.block, SendOut.ok 1])]).2 = [97, 99] ∧
    List.isPrefixOf
      (runWrites ⟨[]⟩ [([97, 98], [SendOut.ok 1, SendOut.block]),
          ([99], [SendOut.block, SendOut.ok 1])]).2
      ([([97, 98], [SendOut.ok 1, SendOut.block]),
          ([99], [SendOut.block, SendOut.ok 1])].map Prod.fst).flatten = false ∧
    0 < (retryQueued [SendOut.block, SendOut.ok 1]
        (runWrites ⟨[]⟩ [([97, 98], [SendOut.ok 1, SendOut.block])]).1).1.len := by
  refine ⟨by decide, by decide, by decide⟩

/-- C1 (corrected): `write` always attempts to drain previously queued bytes
before attempting to send new data, and — provided the socket does not become
writable again within a single `write` call after reporting would-block
(monotone per-call schedules) — the bytes handed to the socket across any
sequence of streaming `write` calls are a prefix of the concatenation of the
write arguments in call order: transmitted ++ still-queued = all written. -/
theorem c1_write_order_monotone (calls : List (List Nat × List SendOut))
    (h : ∀ c ∈ calls, monotoneSched c.2 = true) :
    (runWrites ⟨[]⟩ calls).2 ++ (runWrites ⟨[]⟩ calls).1.bytes
        = (calls.map Prod.fst).flatten ∧
    List.isPrefixOf (runWrites ⟨[]⟩ calls).2
        ((calls.map Prod.fst).flatten) = true := by
  have hmain := runWrites_monotone calls ⟨[]⟩ h
  have hnil : (⟨[]⟩ : ByteQueue).bytes = [] := rfl
  rw [hnil, List.nil_append] at hmain
  refine ⟨hmain, ?_⟩
  rw [← hmain]
  exact isPrefixOf_append _ _

/-- Witness for C1 (corrected) on the concrete calls
`[write [1, 2] with schedule [ok 1, block]]`. -/
theorem c1_write_order_monotone_witness :
    (∀ c ∈ [([1, 2], [SendOut.ok 1, SendOut.block])], monotoneSched c.2 = true) ∧
    ((runWrites ⟨[]⟩ [([1, 2], [SendOut.ok 1, SendOut.block])]).2 ++
          (runWrites ⟨[]⟩ [([1, 2], [SendOut.ok 1, SendOut.block])]).1.bytes
        = ([([1, 2], [SendOut.ok 1, SendOut.block])].map Prod.fst).flatten ∧
      List.isPrefixOf (runWrites ⟨[]⟩ [([1, 2], [SendOut.ok 1, SendOut.block])]).2
        (([([1, 2], [SendOut.ok 1, SendOut.block])].map Prod.fst).flatten) = true) :=
  ⟨by decide, c1_write_order_monotone [([1, 2], [SendOut.ok 1, SendOut.block])] (by decide)⟩

/-- C8 (confirmed): when during a streaming `write` the send of the new data
raises would-block after some (possibly empty) prefix was accepted, `write`
pushes exactly the unsent remainder onto the send queue and returns normally:
the transmitted bytes of the call are the retry bytes followed by the
accepted prefix `tx2` of `data`, the remainder `rem` equals `data` minus that
prefix, and the bytes queued afterwards are the bytes still queued after the
retry followed exactly by `rem`.  (In the model the would-block outcome
yields a value rather than an exception, mirroring the caught
`BlockingIOError`.) -/
theorem c8_wouldblock_queues (bq : ByteQueue) (data : List Nat)
    (sched : List SendOut) (tx2 rem : List Nat) (rest' : List SendOut)
    (h : sendNew (retryQueued sched bq).2.2 data = (tx2, some rem, rest')) :
    (pfWrite bq data sched).1.bytes = (retryQueued sched bq).1.bytes ++ rem ∧
    (pfWrite bq data sched).2 = (retryQueued sched bq).2.1 ++ tx2 ∧
    tx2 ++ rem = data ∧ rem = data.drop tx2.length := by
  have hsound := sendNew_sound (retryQueued sched bq).2.2 data
  rw [h] at hsound
  simp only [Option.getD_some] at hsound
  have hdrop : rem = data.drop tx2.length := by
    rw [← hsound, List.drop_left]
  refine ⟨?_, ?_, hsound, hdrop⟩
  · simp only [pfWrite, h]
    exact bytes_put _ _
  · simp only [pfWrite, h]

/-- Witness for C8: empty starting queue, `data = [5, 6]`, schedule `[ok 1]`
(exhausted after one byte, so the second send would-blocks). -/
theorem c8_wouldblock_queues_witness :
    (sendNew (retryQueued [SendOut.ok 1] ⟨[]⟩).2.2 [5, 6] = ([5], some [6], []) ∧
      (pfWrite ⟨[]⟩ [5, 6] [SendOut.ok 1]).1.bytes
          = (retryQueued [SendOut.ok 1] ⟨[]⟩).1.bytes ++ [6] ∧
      (pfWrite ⟨[]⟩ [5, 6] [SendOut.ok 1]).2
          = (retryQueued [SendOut.ok 1] ⟨[]⟩).2.1 ++ [5] ∧
      [5] ++ [6] = [5, 6] ∧ [6] = [5, 6].drop ([5] : List Nat).length) := by
  refine ⟨by decide, c8_wouldblock_queues ⟨[]⟩ [5, 6] [SendOut.ok 1] [5] [6] [] (by decide)⟩

/-! ## Lemmas about `_recv_msg` and `_checksend` -/

lemma takeWhile_append_zero : ∀ (a b : List Nat), (∀ x ∈ a, x ≠ 0) →
    (a ++ 0 :: b).takeWhile (· != 0) = a := by
  intro a
  induction a with
  | nil => intro b _; simp
  | cons x xs ih =>
      intro b hx
      have hx0 : x ≠ 0 := hx x (by simp)
      simp only [List.cons_append, List.takeWhile_cons]
      rw [if_pos (by simpa using hx0)]
      rw [ih b (fun y hy => hx y (by simp [hy]))]

lemma drop_append_zero (a b : List Nat) :
    (a ++ 0 :: b).drop (a.length + 1) = b := by
  have : a ++ 0 :: b = (a ++ [0]) ++ b := by simp
  rw [this]
  have hlen : a.length + 1 = (a ++ [0]).length := by simp
  rw [hlen]
  exact List.drop_left _ _

lemma recvMsg_terminated (buf payload : List Nat) (hnz : ∀ x ∈ payload, x ≠ 0) :
    recvMsg buf [RecvEv.dataIn (payload ++ [0])] = .ok (buf ++ payload, []) := by
  have h0 : payload ++ [0] = payload ++ 0 :: [] := rfl
  simp only [recvMsg, h0]
  rw [takeWhile_append_zero payload [] hnz]
  rw [if_neg (by simp), if_pos (by simp)]
  rw [drop_append_zero payload []]

/-! ## Claim theorems for EPIPE demultiplexing (C3) -/

/-- C3 counterexample: on a broken-pipe send with nothing readable at the
zero-timeout poll, `_checksend` raises `TimeoutError("No response from
server")` (from `_recv_msg`), not the original `BrokenPipeError` — the
"otherwise the original broken-pipe error propagates" half of the claim is
false (there is no try/except around the `_recv_msg(timeout=0)` call). -/
theorem c3_counterexample :
    checksend [1] SendEv.pipeBroken [] = Except.error ClientErr.timeoutErr ∧
    Except.error ClientErr.timeoutErr
      ≠ (Except.error ClientErr.pipeErr : Except ClientErr Nat) :=
  ⟨rfl, by simp⟩

/-- C3 (corrected): on a broken-pipe send, `_checksend` performs a
zero-timeout receive; if the server sent a non-empty NUL-terminated error
payload, the typed error decoded from `"<ErrorKind>: <message>"` is raised;
if the payload is empty (a bare NUL), the original broken-pipe error
propagates; however, when nothing is readable a `TimeoutError` is raised, and
an EOF or connection reset during the receive raises `EOFError` /
`ConnectionResetError` — in those cases the broken-pipe error does not
propagate. -/
theorem c3_epipe_demux (data payload : List Nat) (hnz : ∀ x ∈ payload, x ≠ 0)
    (hne : payload ≠ []) :
    checksend data SendEv.pipeBroken [RecvEv.dataIn (payload ++ [0])]
        = .error (.serverErr (makeException payload).1 (makeException payload).2) ∧
    checksend data SendEv.pipeBroken [RecvEv.dataIn [0]] = .error .pipeErr ∧
    checksend data SendEv.pipeBroken [] = .error .timeoutErr ∧
    checksend data SendEv.pipeBroken [RecvEv.dataIn []] = .error .eofErr ∧
    (∀ r, checksend data SendEv.pipeBroken (RecvEv.reset :: r) = .error .resetErr) ∧
    (∀ r, checksend data SendEv.pipeBroken (RecvEv.pollTimeout :: r)
        = .error .timeoutErr) := by
  refine ⟨?_, rfl, rfl, rfl, fun r => rfl, fun r => rfl⟩
  simp only [checksend]
  rw [recvMsg_terminated [] payload hnz]
  simp only [List.nil_append]
  rw [if_pos hne]

/-- Witness for C3 (corrected) with the payload `"A: B"` (`[65, 58, 32, 66]`). -/
theorem c3_epipe_demux_witness :
    ((∀ x ∈ [65, 58, 32, 66], x ≠ 0) ∧ ([65, 58, 32, 66] : List Nat) ≠ []) ∧
    (checksend [1] SendEv.pipeBroken [RecvEv.dataIn ([65, 58, 32, 66] ++ [0])]
        = .error (.serverErr (makeException [65, 58, 32, 66]).1
            (makeException [65, 58, 32, 66]).2) ∧
      checksend [1] SendEv.pipeBroken [RecvEv.dataIn [0]] = .error .pipeErr ∧
      checksend [1] SendEv.pipeBroken [] = .error .timeoutErr ∧
      checksend [1] SendEv.pipeBroken [RecvEv.dataIn []] = .error .eofErr ∧
      (∀ r, checksend [1] SendEv.pipeBroken (RecvEv.reset :: r) = .error .resetErr) ∧
      (∀ r, checksend [1] SendEv.pipeBroken (RecvEv.pollTimeout :: r)
          = .error .timeoutErr)) :=
  ⟨⟨by decide, by decide⟩,
    c3_epipe_demux [1] [65, 58, 32, 66] (by decide) (by decide)⟩

/-! ## Lemmas about server control responses -/

lemma hcr_check_access (p : List Nat) (cid : Nat) (oe : Option (List Nat)) :
    handle_control_request (CMD_CHECK_ACCESS ++ 0 :: p) cid oe
      = some (cmd_check_access p oe) := by
  simp only [handle_control_request]
  rw [if_neg (show ¬(CMD_CHECK_ACCESS ++ 0 :: p = []) by simp)]
  rw [takeWhile_append_zero CMD_CHECK_ACCESS p (by decide)]
  rw [if_pos (show (0 : Nat) ∈ CMD_CHECK_ACCESS ++ 0 :: p by simp)]
  rw [drop_append_zero CMD_CHECK_ACCESS p]
  rw [if_neg (show ¬(CMD_CHECK_ACCESS = CMD_HELLO ∧ p = []) from
    fun hand => absurd hand.1 (by decide))]
  rw [if_pos (show CMD_CHECK_ACCESS = CMD_CHECK_ACCESS from rfl)]

/-! ## Claim theorems for response framing (C2) -/

/-- C2 counterexample: the server's success response to the file-open
(`check_access`) request is the two bytes `b'ok'` with no NUL terminator —
sent verbatim by `handle_control_request` — which differs from the
`b"OK" + NUL` sentinel of the claim, is not NUL-terminated, and is not the
message the client's `_open` accepts.  Concrete input: the control message
`b'check_access\x00/a'` with the open succeeding. -/
theorem c2_counterexample :
    handle_control_request (CMD_CHECK_ACCESS ++ 0 :: [47, 97]) 5 none
        = some RESP_OK_LOWER ∧
    RESP_OK_LOWER ≠ FILE_OK ++ [0] ∧
    RESP_OK_LOWER.getLast? ≠ some 0 ∧
    proxyOpenAccepts RESP_OK_LOWER = false := by
  refine ⟨by decide, by decide, by decide, by decide⟩

/-- C2 (corrected): the server sends control responses without any NUL
terminator; its success response to a well-formed `check_access` request is
exactly `b'ok'` (and an open failure returns the formatted error text
verbatim), while the client's `_open` enters streaming if and only if the
NUL-terminated message it received equals `b"OK"` — a sentinel this server
never produces for `check_access`. -/
theorem c2_response_framing (p emsg : List Nat) (cid : Nat) (hp : 0 ∉ p) :
    handle_control_request (CMD_CHECK_ACCESS ++ 0 :: p) cid none
        = some RESP_OK_LOWER ∧
    handle_control_request (CMD_CHECK_ACCESS ++ 0 :: p) cid (some emsg)
        = some emsg ∧
    RESP_OK_LOWER ≠ FILE_OK ++ [0] ∧
    RESP_OK_LOWER.getLast? ≠ some 0 ∧
    (∀ r : List Nat, proxyOpenAccepts r = true ↔ r = FILE_OK) := by
  refine ⟨?_, ?_, by decide, by decide, ?_⟩
  · rw [hcr_check_access]
    simp only [cmd_check_access]
    rw [if_neg hp]
  · rw [hcr_check_access]
    simp only [cmd_check_access]
    rw [if_neg hp]
  · intro r
    simp [proxyOpenAccepts]

/-- Witness for C2 (corrected) with path `"/a"` (`[47, 97]`) and error text
`"E: m"` (`[69, 58, 32, 109]`). -/
theorem c2_response_framing_witness :
    ((0 : Nat) ∉ [47, 97] ∧
      (handle_control_request (CMD_CHECK_ACCESS ++ 0 :: [47, 97]) 7 none
          = some RESP_OK_LOWER ∧
        handle_control_request (CMD_CHECK_ACCESS ++ 0 :: [47, 97]) 7
            (some [69, 58, 32, 109]) = some [69, 58, 32, 109] ∧
        RESP_OK_LOWER ≠ FILE_OK ++ [0] ∧
        RESP_OK_LOWER.getLast? ≠ some 0 ∧
        (∀ r : List Nat, proxyOpenAccepts r = true ↔ r = FILE_OK))) :=
  ⟨by decide, c2_response_framing [47, 97] [69, 58, 32, 109] 7 (by decide)⟩

/-! ## Lemmas about the FileHandler registry -/

lemma assocFindH_append_self (reg : List (String × FHandler)) (p : String)
    (h : FHandler) (hnone : assocFindH reg p = none) :
    assocFindH (reg ++ [(p, h)]) p = some h := by
  induction reg with
  | nil => simp [assocFindH]
  | cons e reg ih =>
      obtain ⟨k, v⟩ := e
      simp only [assocFindH] at hnone ⊢
      by_cases hk : k = p
      · rw [if_pos hk] at hnone
        exact absurd hnone (by simp)
      · rw [if_neg hk] at hnone ⊢
        exact ih hnone

/-! ## Claim theorems for FileHandler.write failure handling (C4) -/

/-- C4 counterexample: with the file open and a client already attached, a
failing `write`/`flush` leaves the handler completely unchanged — the file
handle is retained (not set to absent) and no warning is logged (the
`except` branch is `# Nothing to be done. return`), contradicting the claim
that the handler logs a warning, discards the handle and returns the
failure. -/
theorem c4_counterexample :
    FHandler.write ⟨"/p", [7], some [1]⟩ 7 [65] false true
        = (⟨"/p", [7], some [1]⟩, []) ∧
    (FHandler.write ⟨"/p", [7], some [1]⟩ 7 [65] false true).1.file = some [1] ∧
    (FHandler.write ⟨"/p", [7], some [1]⟩ 7 [65] false true).2 = [] := by
  refine ⟨by decide, by decide, by decide⟩

/-- C4 (corrected): `FileHandler.write` appends the given bytes to the file
and flushes on success; when the write or flush fails with an I/O error it
returns silently — no warning is logged, the file handle is retained (so
subsequent writes retry on the same handle), and no failure value reaches
the caller (the Python method returns `None` on every path).  A failure to
*open* the file (when the handle is absent) logs a warning and leaves the
handle absent. -/
theorem c4_write_failure (h h2 : FHandler) (cid : Nat) (msg c : List Nat)
    (hf : h.file = some c) (hc : cid ∈ h.clients)
    (hf2 : h2.file = none) (hc2 : cid ∈ h2.clients) :
    FHandler.write h cid msg false false = ({ h with file := some (c ++ msg) }, []) ∧
    FHandler.write h cid msg false true = (h, []) ∧
    FHandler.write h2 cid msg true false = (h2, [LogEntry.openFailWarning]) := by
  refine ⟨?_, ?_, ?_⟩
  · simp [FHandler.write, if_pos hc, hf]
  · simp [FHandler.write, if_pos hc, hf]
  · simp [FHandler.write, if_pos hc2, hf2]

/-- Witness for C4 (corrected) at concrete handlers for path `"/p"`. -/
theorem c4_write_failure_witness :
    ((⟨"/p", [7], some [1]⟩ : FHandler).file = some [1] ∧
      7 ∈ (⟨"/p", [7], some [1]⟩ : FHandler).clients ∧
      (⟨"/q", [7], none⟩ : FHandler).file = none ∧
      7 ∈ (⟨"/q", [7], none⟩ : FHandler).clients) ∧
    (FHandler.write ⟨"/p", [7], some [1]⟩ 7 [65] false false
        = ({ (⟨"/p", [7], some [1]⟩ : FHandler) with file := some ([1] ++ [65]) }, []) ∧
      FHandler.write ⟨"/p", [7], some [1]⟩ 7 [65] false true
        = (⟨"/p", [7], some [1]⟩, []) ∧
      FHandler.write ⟨"/q", [7], none⟩ 7 [65] true false
        = (⟨"/q", [7], none⟩, [LogEntry.openFailWarning])) :=
  ⟨⟨by decide, by decide, by decide, by decide⟩,
    c4_write_failure ⟨"/p", [7], some [1]⟩ ⟨"/q", [7], none⟩ 7 [65] [1]
      (by decide) (by decide) (by decide) (by decide)⟩

/-! ## Claim theorems for FileHandler.instance (C5) -/

/-- C5 counterexample: `FileHandler.instance` creates the handler without
opening the file — `__init__` sets the handle to `None` and no filesystem
operation happens (the model needs no open oracle at all), so no open error
can propagate from `instance`; and after the lazy open inside `write` fails,
the handler is still registered under its path with an absent handle. -/
theorem c5_counterexample :
    FHandler.instance' [] "/p"
        = ([("/p", ⟨"/p", [], none⟩)], ⟨"/p", [], none⟩) ∧
    (FHandler.instance' [] "/p").2.file = none ∧
    (FHandler.write (FHandler.instance' [] "/p").2 3 [65] true false).1.file
        = none ∧
    assocFindH (FHandler.instance' [] "/p").1 "/p" = some ⟨"/p", [], none⟩ := by
  refine ⟨by decide, by decide, by decide, by decide⟩

/-- C5 (corrected): `instance(path)` returns the already-registered handler
when one exists; otherwise it creates one with `__init__` — which does *not*
open the file (the handle starts absent) — and registers it.  The file is
opened lazily by `write`; an open failure there is logged as a warning and
swallowed rather than propagated, and the handler remains registered with an
absent handle (the registry removes a handler only in `client_done`/`close`,
never because an open failed). -/
theorem c5_instance_lazy (reg reg2 : List (String × FHandler)) (p p2 : String)
    (h1 : FHandler) (cid : Nat) (msg : List Nat) (wf : Bool)
    (hnone : assocFindH reg p = none) (hsome : assocFindH reg2 p2 = some h1) :
    FHandler.instance' reg p = (reg ++ [(p, ⟨p, [], none⟩)], ⟨p, [], none⟩) ∧
    assocFindH (FHandler.instance' reg p).1 p = some ⟨p, [], none⟩ ∧
    (FHandler.write ⟨p, [], none⟩ cid msg true wf).1
        = ⟨p, [cid], none⟩ ∧
    (FHandler.write ⟨p, [], none⟩ cid msg true wf).2
        = [LogEntry.newClientInfo cid, LogEntry.openFailWarning] ∧
    FHandler.instance' reg2 p2 = (reg2, h1) := by
  have hinst : FHandler.instance' reg p
      = (reg ++ [(p, ⟨p, [], none⟩)], ⟨p, [], none⟩) := by
    simp [FHandler.instance', hnone]
  refine ⟨hinst, ?_, ?_, ?_, ?_⟩
  · rw [hinst]
    exact assocFindH_append_self reg p _ hnone
  · simp [FHandler.write]
  · simp [FHandler.write]
  · simp [FHandler.instance', hsome]

/-- Witness for C5 (corrected): empty registry for the fresh path `"/p"`,
and a one-entry registry for the found path `"/q"`. -/
theorem c5_instance_lazy_witness :
    (assocFindH [] "/p" = none ∧
      assocFindH [("/q", ⟨"/q", [4], none⟩)] "/q" = some ⟨"/q", [4], none⟩) ∧
    (FHandler.instance' [] "/p"
        = ([] ++ [("/p", ⟨"/p", [], none⟩)], ⟨"/p", [], none⟩) ∧
      assocFindH (FHandler.instance' [] "/p").1 "/p" = some ⟨"/p", [], none⟩ ∧
      (FHandler.write ⟨"/p", [], none⟩ 3 [65] true false).1 = ⟨"/p", [3], none⟩ ∧
      (FHandler.write ⟨"/p", [], none⟩ 3 [65] true false).2
          = [LogEntry.newClientInfo 3, LogEntry.openFailWarning] ∧
      FHandler.instance' [("/q", ⟨"/q", [4], none⟩)] "/q"
          = ([("/q", ⟨"/q", [4], none⟩)], ⟨"/q", [4], none⟩)) :=
  ⟨⟨by decide, by decide⟩,
    c5_instance_lazy [] [("/q", ⟨"/q", [4], none⟩)] "/p" "/q" ⟨"/q", [4], none⟩ 3 [65]
      false (by decide) (by decide)⟩

/-! ## Claim theorem for close() idempotence (C9) -/

/-- C9 (confirmed): `ProxyFile.close` is idempotent and releases the socket
exactly once.  After any call (whether it returns normally or raises a
flush-timeout / receive error — the `finally: self.sock.close()` covers every
path), the socket is closed, and any subsequent call returns immediately,
raises nothing, and changes nothing. -/
theorem c9_close_idempotent (s : PFState) (f f2 : List (Option (List SendOut)))
    (r r2 : List RecvEv) :
    (pfClose s f r).1.sockOpen = false ∧
    pfClose (pfClose s f r).1 f2 r2 = ((pfClose s f r).1, none) := by
  constructor
  · simp only [pfClose]
    by_cases h : s.sockOpen = false
    · rw [if_pos h]; exact h
    · rw [if_neg h]
  · by_cases h : s.sockOpen = false
    · have h1 : pfClose s f r = (s, none) := by
        simp only [pfClose]
        rw [if_pos h]
      rw [h1]
      simp only [pfClose]
      rw [if_pos h]
    · have h1 : (pfClose s f r).1
          = { sockOpen := false, queue := (flushLoop f s.queue).1 } := by
        simp only [pfClose]
        rw [if_neg h]
      rw [h1]
      simp [pfClose]

/-! ## Lemmas about the timeout machinery -/

lemma findT_remove_self (l : List ((Nat × String) × Nat)) (k : Nat × String) :
    assocFindT (assocRemoveT l k) k = none := by
  induction l with
  | nil => rfl
  | cons e l ih =>
      obtain ⟨k0, v⟩ := e
      by_cases hk : k0 = k
      · simpa [assocRemoveT, List.filter_cons, hk] using ih
      · simp only [assocRemoveT, List.filter_cons] at ih ⊢
        rw [if_pos (by simpa using hk)]
        simpa [assocFindT, hk] using ih

lemma findT_remove_ne (l : List ((Nat × String) × Nat)) (k k' : Nat × String)
    (h : k' ≠ k) : assocFindT (assocRemoveT l k) k' = assocFindT l k' := by
  induction l with
  | nil => rfl
  | cons e l ih =>
      obtain ⟨k0, v⟩ := e
      by_cases hk : k0 = k
      · subst hk
        simp only [assocRemoveT, List.filter_cons] at ih ⊢
        rw [if_neg (by simp)]
        rw [show assocFindT ((k0, v) :: l) k' = assocFindT l k' from by
          simp only [assocFindT]
          rw [if_neg (fun he : k0 = k' => h (he.symm))]]
        exact ih
      · simp only [assocRemoveT, List.filter_cons] at ih ⊢
        rw [if_pos (by simpa using hk)]
        by_cases hk' : k0 = k'
        · simp [assocFindT, hk']
        · simp only [assocFindT, if_neg hk']
          exact ih

lemma assocFindH_filter_self (reg : List (String × FHandler)) (p : String) :
    assocFindH (reg.filter (fun e => decide (e.1 ≠ p))) p = none := by
  induction reg with
  | nil => rfl
  | cons e reg ih =>
      obtain ⟨k, v⟩ := e
      by_cases hk : k = p
      · simpa [List.filter_cons, hk] using ih
      · simp only [List.filter_cons] at ih ⊢
        rw [if_pos (by simpa using hk)]
        simpa [assocFindH, hk] using ih

lemma assocFindH_update (reg : List (String × FHandler)) (p : String)
    (h h0 : FHandler) (hfound : assocFindH reg p = some h0) :
    assocFindH (assocUpdateH reg p h) p = some h := by
  induction reg with
  | nil => exact absurd hfound (by simp [assocFindH])
  | cons e reg ih =>
      obtain ⟨k, v⟩ := e
      by_cases hk : k = p
      · subst hk
        simp only [assocUpdateH, List.map_cons]
        simp [assocFindH]
      · simp only [assocFindH, if_neg hk] at hfound
        simp only [assocUpdateH, List.map_cons]
        rw [if_neg (by simpa using hk)]
        simp only [assocFindH, if_neg hk]
        simpa [assocUpdateH] using ih hfound

lemma instance'_find (reg : List (String × FHandler)) (p : String) :
    assocFindH (FHandler.instance' reg p).1 p = some (FHandler.instance' reg p).2 := by
  rcases hfound : assocFindH reg p with _ | h
  · simp only [FHandler.instance', hfound]
    exact assocFindH_append_self reg p _ hfound
  · simp [FHandler.instance', hfound]

lemma client_done_detaches (reg : List (String × FHandler)) (p : String)
    (c : Nat) (h' : FHandler)
    (hfind : assocFindH (client_done reg p c) p = some h') : c ∉ h'.clients := by
  have hr := instance'_find reg p
  simp only [client_done] at hfind
  by_cases hc : c ∈ (FHandler.instance' reg p).2.clients
  · rw [if_pos hc] at hfind
    by_cases hempty :
        ((FHandler.instance' reg p).2.clients.filter (fun x => decide (x ≠ c))) = []
    · rw [if_pos (by simpa using hempty)] at hfind
      rw [assocFindH_filter_self] at hfind
      exact absurd hfind (by simp)
    · rw [if_neg (by simpa using hempty)] at hfind
      rw [assocFindH_update _ _ _ _ hr] at hfind
      have : h' = { (FHandler.instance' reg p).2 with
          clients := (FHandler.instance' reg p).2.clients.filter
            (fun x => decide (x ≠ c)) } := by
        injection hfind with hh
        exact hh.symm
      rw [this]
      intro hmem
      simp only [List.mem_filter] at hmem
      exact absurd hmem.2 (by simp)
  · rw [if_neg hc] at hfind
    rw [hr] at hfind
    injection hfind with hh
    rw [← hh]
    exact hc

lemma nextDue_mem : ∀ (l : List STask) (t : STask), nextDue l = some t → t ∈ l := by
  intro l
  induction l with
  | nil => intro t ht; exact absurd ht (by simp [nextDue])
  | cons a l ih =>
      intro t ht
      simp only [nextDue] at ht
      rcases hnd : nextDue l with _ | u
      · rw [hnd] at ht
        injection ht with ht
        simp [← ht]
      · rw [hnd] at ht
        dsimp only at ht
        by_cases hle : a.dueAt ≤ u.dueAt
        · rw [if_pos hle] at ht
          injection ht with ht
          simp [← ht]
        · rw [if_neg hle] at ht
          injection ht with ht
          rw [← ht]
          exact List.mem_cons_of_mem _ (ih u hnd)

lemma fireDetached_true (s : SrvState) : fireDetached s = true := by
  simp only [fireDetached]
  rcases hnd : nextDue s.tasks with _ | t
  · rfl
  · have hreg : (fire s).reg = client_done s.reg t.key.2 t.key.1 := by
      simp only [fire, hnd, do_timeout]
    rcases hfind : assocFindH (fire s).reg t.key.2 with _ | h
    · simp [hfind]
    · simp only [hfind]
      rw [hreg] at hfind
      simp only [decide_eq_true_eq]
      exact client_done_detaches s.reg t.key.2 t.key.1 h hfind

lemma map_nodup_inj : ∀ (l : List STask), (l.map STask.tid).Nodup →
    ∀ a ∈ l, ∀ b ∈ l, a.tid = b.tid → a = b := by
  intro l
  induction l with
  | nil => intro _ a ha; simp at ha
  | cons t l ih =>
      intro hn a ha b hb heq
      simp only [List.map_cons, List.nodup_cons] at hn
      rcases List.mem_cons.mp ha with ha1 | ha2 <;>
        rcases List.mem_cons.mp hb with hb1 | hb2
      · rw [ha1, hb1]
      · exfalso
        apply hn.1
        rw [ha1] at heq
        rw [heq]
        exact List.mem_map_of_mem _ hb2
      · exfalso
        apply hn.1
        rw [hb1] at heq
        rw [← heq]
        exact List.mem_map_of_mem _ ha2
      · exact ih hn.2 a ha2 b hb2 heq

lemma mem_eraseP_tid : ∀ (l : List STask) (tid0 : Nat),
    (l.map STask.tid).Nodup →
    ∀ t ∈ l.eraseP (fun u => decide (u.tid = tid0)), t.tid ≠ tid0 := by
  intro l
  induction l with
  | nil => intro tid0 _ t ht; simp at ht
  | cons a l ih =>
      intro tid0 hn t ht
      simp only [List.map_cons, List.nodup_cons] at hn
      by_cases ha : a.tid = tid0
      · rw [List.eraseP_cons_of_pos (by simpa using ha)] at ht
        intro htid
        apply hn.1
        rw [ha, ← htid]
        exact List.mem_map_of_mem _ ht
      · rw [List.eraseP_cons_of_neg (by simpa using ha)] at ht
        rcases List.mem_cons.mp ht with h1 | h2
        · rw [h1]; exact ha
        · exact ih tid0 hn.2 t h2

lemma cancel_now (s : SrvState) (c : Nat) (p : String) :
    (cancel_timeout s c p).now = s.now := by
  rcases hf : assocFindT s.timeoutTasks (c, p) with _ | tid0 <;>
    simp [cancel_timeout, hf]

lemma cancel_inv (s : SrvState) (c : Nat) (p : String) (h : TaskInv s) :
    TaskInv (cancel_timeout s c p) ∧
    ∀ t ∈ (cancel_timeout s c p).tasks, t.key ≠ (c, p) := by
  rcases hf : assocFindT s.timeoutTasks (c, p) with _ | tid0
  · simp only [cancel_timeout, hf]
    refine ⟨h, ?_⟩
    intro t ht hk
    have h1 := h.1 t ht
    rw [hk, hf] at h1
    exact absurd h1 (by simp)
  · simp only [cancel_timeout, hf]
    have hkeys : ∀ t ∈ s.tasks.eraseP (fun u => decide (u.tid = tid0)),
        t.key ≠ (c, p) := by
      intro t ht hk
      have htid := mem_eraseP_tid s.tasks tid0 h.2.2 t ht
      have hmem := List.mem_of_mem_eraseP ht
      have h1 := h.1 t hmem
      rw [hk, hf] at h1
      injection h1 with h1
      exact htid h1.symm
    refine ⟨⟨?_, ?_, ?_⟩, hkeys⟩
    · intro t ht
      have hmem := List.mem_of_mem_eraseP ht
      show assocFindT (assocRemoveT s.timeoutTasks (c, p)) t.key = some t.tid
      rw [findT_remove_ne _ _ _ (hkeys t ht)]
      exact h.1 t hmem
    · intro t ht
      exact h.2.1 t (List.mem_of_mem_eraseP ht)
    · exact List.Nodup.sublist
        (List.Sublist.map STask.tid (List.eraseP_sublist s.tasks)) h.2.2

lemma set_inv (s : SrvState) (c : Nat) (p : String) (h : TaskInv s)
    (hno : ∀ t ∈ s.tasks, t.key ≠ (c, p)) : TaskInv (set_timeout s c p) := by
  refine ⟨?_, ?_, ?_⟩
  · intro t ht
    simp only [set_timeout] at ht ⊢
    rcases List.mem_append.mp ht with hmem | hnew
    · have hkey := hno t hmem
      show (if (c, p) = t.key then some s.nextTaskId
        else assocFindT (assocRemoveT s.timeoutTasks (c, p)) t.key) = some t.tid
      rw [if_neg (fun he => hkey he.symm)]
      rw [findT_remove_ne _ _ _ hkey]
      exact h.1 t hmem
    · have heq : t = ⟨s.nextTaskId, s.now + FILE_CLOSE_TIMEOUT, (c, p)⟩ := by
        simpa using hnew
      rw [heq]
      show (if (c, p) = (c, p) then some s.nextTaskId else _) = some s.nextTaskId
      rw [if_pos rfl]
  · intro t ht
    simp only [set_timeout] at ht ⊢
    rcases List.mem_append.mp ht with hmem | hnew
    · exact Nat.lt_succ_of_lt (h.2.1 t hmem)
    · have heq : t = ⟨s.nextTaskId, s.now + FILE_CLOSE_TIMEOUT, (c, p)⟩ := by
        simpa using hnew
      rw [heq]
      exact Nat.lt_succ_self _
  · simp only [set_timeout, List.map_append, List.map_cons, List.map_nil]
    rw [List.nodup_append]
    refine ⟨h.2.2, by simp, ?_⟩
    intro a ha hb
    simp only [List.mem_singleton] at hb
    obtain ⟨t, htmem, htid⟩ := List.mem_map.mp ha
    have hlt := h.2.1 t htmem
    omega

lemma fire_inv (s : SrvState) (h : TaskInv s) : TaskInv (fire s) := by
  simp only [fire]
  rcases hnd : nextDue s.tasks with _ | t
  · exact h
  · have htmem := nextDue_mem s.tasks t hnd
    have htasksN : s.tasks.Nodup := List.Nodup.of_map _ h.2.2
    simp only [do_timeout]
    refine ⟨?_, ?_, ?_⟩
    · intro u hu
      have hu' := (List.Nodup.mem_erase_iff htasksN).mp hu
      have hukey : u.key ≠ t.key := by
        intro hk
        apply hu'.1
        apply map_nodup_inj s.tasks h.2.2 u hu'.2 t htmem
        have h1 := h.1 u hu'.2
        have h2 := h.1 t htmem
        rw [hk, h2] at h1
        injection h1 with h1
        exact h1.symm
      show assocFindT (assocRemoveT s.timeoutTasks (t.key.1, t.key.2)) u.key
        = some u.tid
      rw [show ((t.key.1, t.key.2) : Nat × String) = t.key from rfl]
      rw [findT_remove_ne _ _ _ hukey]
      exact h.1 u hu'.2
    · intro u hu
      exact h.2.1 u ((List.Nodup.mem_erase_iff htasksN).mp hu).2
    · exact List.Nodup.sublist
        (List.Sublist.map STask.tid (List.erase_sublist t s.tasks)) h.2.2

lemma handle_write_request_inv (s : SrvState) (c : Nat) (p : String)
    (m : List Nat) (o w : Bool) (h : TaskInv s) :
    TaskInv (handle_write_request s c p m o w) := by
  simp only [handle_write_request]
  have h' : TaskInv { s with reg := (assocUpdateH (FHandler.instance' s.reg p).1 p
      (FHandler.write (FHandler.instance' s.reg p).2 c m o w).1) } := h
  have hc := cancel_inv _ c p h'
  exact set_inv _ c p hc.1 hc.2

lemma applySOp_inv (s : SrvState) (op : SOp) (h : TaskInv s) :
    TaskInv (applySOp s op) := by
  match op with
  | .writeReq c p m o w => exact handle_write_request_inv s c p m o w h
  | .doneReq c p => exact (cancel_inv s c p h).1
  | .fireNext => exact fire_inv s h
  | .tick d => exact h

lemma runSrv_inv_aux : ∀ (ops : List SOp) (s : SrvState), TaskInv s →
    TaskInv (ops.foldl applySOp s) := by
  intro ops
  induction ops with
  | nil => intro s h; exact h
  | cons op ops ih =>
      intro s h
      exact ih _ (applySOp_inv s op h)

lemma initSrv_inv : TaskInv initSrv := by
  refine ⟨?_, ?_, ?_⟩ <;> simp [initSrv, TaskInv]

lemma runSrv_inv (ops : List SOp) : TaskInv (runSrv ops) :=
  runSrv_inv_aux ops initSrv initSrv_inv

lemma keys_nodup_aux : ∀ (l : List STask) (dict : List ((Nat × String) × Nat)),
    (∀ t ∈ l, assocFindT dict t.key = some t.tid) →
    (l.map STask.tid).Nodup → (l.map STask.key).Nodup := by
  intro l
  induction l with
  | nil => intro dict _ _; simp
  | cons a l ih =>
      intro dict hA hn
      simp only [List.map_cons, List.nodup_cons] at hn ⊢
      constructor
      · intro hmem
        obtain ⟨b, hbmem, hbkey⟩ := List.mem_map.mp hmem
        have h1 := hA b (List.mem_cons_of_mem _ hbmem)
        have h2 := hA a (List.mem_cons_self _ _)
        rw [hbkey, h2] at h1
        injection h1 with h1
        exact hn.1 (h1 ▸ List.mem_map_of_mem _ hbmem)
      · exact ih dict (fun t ht => hA t (List.mem_cons_of_mem _ ht)) hn.2

lemma taskDueTimes_cancel_set (s' : SrvState) (c : Nat) (p : String)
    (h : TaskInv s') :
    taskDueTimes (set_timeout (cancel_timeout s' c p) c p) (c, p)
      = [s'.now + FILE_CLOSE_TIMEOUT] := by
  have hc := cancel_inv s' c p h
  simp only [taskDueTimes, set_timeout, List.filter_append]
  rw [List.filter_eq_nil_iff.mpr (fun t ht => by simpa using hc.2 t ht)]
  rw [cancel_now]
  simp

lemma taskDueTimes_writeReq (s : SrvState) (h : TaskInv s) (c : Nat) (p : String)
    (m : List Nat) (o w : Bool) :
    taskDueTimes (handle_write_request s c p m o w) (c, p)
      = [s.now + FILE_CLOSE_TIMEOUT] := by
  simp only [handle_write_request]
  exact taskDueTimes_cancel_set _ c p h

/-! ## Claim theorem for the inactivity auto-close invariant (C10) -/

/-- C10 (confirmed): in every server state reachable from the initial state,
each `(client id, filepath)` pair has at most one pending timeout task (the
pending tasks' keys are pairwise distinct); a write request for a pair
cancels its previous task and schedules exactly one new task due
`FILE_CLOSE_TIMEOUT` (5) seconds after the current time; and when the next
due task fires, its client is detached from the file's handler via
`client_done` (the client id is no longer in the clients set of any handler
registered under the task's path). -/
theorem c10_timeout_invariant (ops : List SOp) (c : Nat) (p : String)
    (m : List Nat) (o w : Bool) :
    ((runSrv ops).tasks.map STask.key).Nodup ∧
    taskDueTimes (applySOp (runSrv ops) (SOp.writeReq c p m o w)) (c, p)
        = [(runSrv ops).now + FILE_CLOSE_TIMEOUT] ∧
    fireDetached (runSrv ops) = true := by
  have h := runSrv_inv ops
  exact ⟨keys_nodup_aux _ _ h.1 h.2.2,
    taskDueTimes_writeReq _ h c p m o w,
    fireDetached_true _⟩
